import Mathlib

/-!
# Verification of the 33Studio finance dashboard (`src/app.py`)

A shallow embedding of the data model and the operations of `app.py`:
the five CSV-backed tables, the permission map, the page actions that
write tables, the dashboard aggregates, the invoice milestone selection,
the archive buttons, the CSV round trip of `save_df`/`read_csv`, and the
password-hashing step of the admin panel.  Numeric cells are modelled as
rationals; a CSV cell that pandas would read as a string or as NaN is
modelled explicitly by the `Cell` type.
-/

namespace App

/-! ## Cells and numeric coercion

`pd.read_csv` yields, per cell, either a parsed number, a NaN (missing
value), or an unparsable string.  `pd.to_numeric(errors="coerce")` sends
a number to itself and anything else to NaN; `.fillna(0)` sends NaN to 0.
A plain pandas `.sum()` over a column skips NaN but is undefined (raises
or concatenates) as soon as a string cell is present, so it is modelled
as an `Option`. -/

inductive Cell where
  | num (q : ℚ)
  | nan
  | str (s : String)
deriving DecidableEq, Repr

/-- `pd.to_numeric(errors="coerce")` on one cell: numbers survive,
NaN and unparsable strings become missing.  (String cells stand for the
cells `read_csv` left as text, i.e. the unparsable ones.) -/
def toNumericCoerce : Cell → Option ℚ
  | Cell.num q => some q
  | Cell.nan => none
  | Cell.str _ => none

/-- `.fillna(0)` after the coercion. -/
def fillZero : Option ℚ → ℚ
  | some q => q
  | none => 0

/-- A plain pandas `.sum()` over a column: NaN entries are skipped, but a
string cell makes the sum undefined (pandas raises a `TypeError` on a
mixed column or concatenates an all-string one). -/
def strictSum : List Cell → Option ℚ
  | [] => some 0
  | Cell.num q :: rest => (strictSum rest).map (q + ·)
  | Cell.nan :: rest => strictSum rest
  | Cell.str _ :: _ => none

/-! ## Row types (schemas from `COLUMNS` in `app.py`) -/

/-- `clients`: Client, Contact, Total Paid, Total Due. -/
structure ClientRow where
  client : String
  contact : String
  totalPaid : Cell
  totalDue : Cell
deriving DecidableEq, Repr

/-- `projects`: Client, Project, Employee, Budget, Payment 20%,
Payment 40%, Payment 40% (2), Paid Status.  Monetary cells are `Option ℚ`
(a missing cell reads as NaN, checked by `pd.notnull` in the invoice
generator). -/
structure ProjectRow where
  client : String
  project : String
  employee : String
  budget : Option ℚ
  payment20 : Option ℚ
  payment40 : Option ℚ
  payment40b : Option ℚ
  paidStatus : String
deriving DecidableEq, Repr

/-- `salaries`: Employee, Role, Salary, Paid, Date (the date is irrelevant
to the verified aggregates and is kept as a string). -/
structure SalaryRow where
  employee : String
  role : String
  salary : Cell
  paid : String
  date : String
deriving DecidableEq, Repr

/-- `expenses`: Category, Amount, Date, Notes. -/
structure ExpenseRow where
  category : String
  amount : Cell
  date : String
  notes : String
deriving DecidableEq, Repr

/-! ## Permissions (`PERMISSIONS` and `can`, app.py lines 85-106) -/

/-- The privilege map, verbatim from `app.py`. -/
def PERMISSIONS : List (String × List String) :=
  [ ("admin",
      [ "edit_clients",
        "edit_projects", "archive_projects", "add_project",
        "edit_salaries", "archive_salaries", "add_salary",
        "edit_expenses", "archive_expenses", "add_expense",
        "edit_monthly", "archive_monthly", "add_monthly",
        "admin_panel" ]),
    ("staff",
      [ "edit_clients",
        "edit_projects", "add_project",
        "edit_salaries", "add_salary",
        "edit_expenses", "add_expense",
        "edit_monthly", "add_monthly" ]),
    ("view", []) ]

/-- `can(action)`: membership of the action in the role's privilege set,
with `PERMISSIONS.get(role, set())` modelled by `List.lookup` defaulting
to the empty list. -/
def can (role action : String) : Bool :=
  match PERMISSIONS.lookup role with
  | some actions => action ∈ actions
  | none => false

/-- The user actions of the app that reach a `save_df` or `to_csv` call
on a table file. -/
inductive UEvent where
  | saveClients
  | saveProjects | archiveProjects | addProject
  | saveSalaries | archiveSalaries | addSalary
  | saveExpenses | archiveExpenses | addExpense
  | saveMonthly | archiveMonthly | addMonthly
  | saveUsers
deriving DecidableEq, Repr

/-- Which table files a user action writes, given the session role.
Each branch reproduces the guard in front of the corresponding
`save_df`/`to_csv` call in `app.py` (the Save/Archive buttons are behind
`can(...) and st.button(...)`; the add forms are inside
`if can("add_..."):` blocks; the admin panel page is only offered and
rendered under `can("admin_panel")`). -/
def handleEvent (role : String) : UEvent → List String
  | UEvent.saveClients => if can role "edit_clients" then ["clients"] else []
  | UEvent.saveProjects => if can role "edit_projects" then ["projects"] else []
  | UEvent.archiveProjects => if can role "archive_projects" then ["archive/projects"] else []
  | UEvent.addProject => if can role "add_project" then ["projects"] else []
  | UEvent.saveSalaries => if can role "edit_salaries" then ["salaries"] else []
  | UEvent.archiveSalaries => if can role "archive_salaries" then ["archive/salaries"] else []
  | UEvent.addSalary => if can role "add_salary" then ["salaries"] else []
  | UEvent.saveExpenses => if can role "edit_expenses" then ["expenses"] else []
  | UEvent.archiveExpenses => if can role "archive_expenses" then ["archive/expenses"] else []
  | UEvent.addExpense => if can role "add_expense" then ["expenses"] else []
  | UEvent.saveMonthly => if can role "edit_monthly" then ["monthly"] else []
  | UEvent.archiveMonthly => if can role "archive_monthly" then ["archive/monthly"] else []
  | UEvent.addMonthly => if can role "add_monthly" then ["monthly"] else []
  | UEvent.saveUsers => if can role "admin_panel" then ["users"] else []

/-! ## Projects page operations -/

/-- The "Add Project" button (app.py lines 292-306): the new row is built
verbatim from the eight form inputs and appended; no field is computed
from another. -/
def addProject (df : List ProjectRow)
    (client project employee : String)
    (budget p20 p40 p40b : ℚ) (paid : String) : List ProjectRow :=
  df ++ [{ client := client, project := project, employee := employee,
           budget := some budget, payment20 := some p20,
           payment40 := some p40, payment40b := some p40b,
           paidStatus := paid }]

/-- The Save Projects path (app.py lines 262-274): `st.data_editor`
returns the grid as edited by the user and `save_df` persists it verbatim
with `to_csv`; no field of any row is recomputed on the way to disk. -/
def editAndSaveProjects (edited : List ProjectRow) : List ProjectRow :=
  edited

/-- The dashboard reminder loop's paid test (app.py line 210):
`str(row.get("Paid Status", "")).lower() == "yes"`. -/
def treatedAsPaid (r : ProjectRow) : Bool :=
  r.paidStatus.toLower == "yes"

/-- `pd.notnull(x) and x > 0`, the milestone test of the invoice
generator. -/
def outstanding : Option ℚ → Bool
  | some a => a > 0
  | none => false

/-- The invoice generator's milestone loop (app.py lines 483-503):
`for lbl in ["Payment 20%", "Payment 40%", "Payment 40% (2)"]` with a
`break` after the first label whose cell is non-null and positive —
unrolled over the three labels in their fixed order. -/
def nextMilestone (r : ProjectRow) : Option (String × Option ℚ) :=
  if outstanding r.payment20 then some ("Payment 20%", r.payment20)
  else if outstanding r.payment40 then some ("Payment 40%", r.payment40)
  else if outstanding r.payment40b then some ("Payment 40% (2)", r.payment40b)
  else none

/-- The milestone cell of a row at position `i` of the fixed label order. -/
def milestoneAt (r : ProjectRow) : Fin 3 → Option ℚ
  | 0 => r.payment20
  | 1 => r.payment40
  | 2 => r.payment40b

/-- The fixed label order of the milestone loop. -/
def milestoneLabels : Fin 3 → String
  | 0 => "Payment 20%"
  | 1 => "Payment 40%"
  | 2 => "Payment 40% (2)"

/-! ## Archive buttons

Each Archive button (projects lines 277-280, salaries 344-347, expenses
391-394, monthly 436-439) does one thing: write the current frame to
`ARCHIVE_DIR / f"{table}_{tag}.csv"` with `tag = %B_%Y`.  The live file
under `data/` is not rewritten and the in-memory frame is not cleared, so
the next `pd.read_csv` of the live table returns the same rows.  There is
no check for an empty table: an empty frame is archived as an empty file. -/

/-- Result of pressing an Archive button: the rows written to the dated
archive file, the rows of the live table afterwards, and the archive
file's name. -/
structure ArchiveResult (α : Type) where
  archived : List α
  live : List α
  file : String
deriving Repr

/-- The archive filename `{table}_{Month}_{Year}.csv` built from
`datetime.today().strftime("%B_%Y")`. -/
def archiveName (table month : String) (year : Nat) : String :=
  table ++ "_" ++ month ++ "_" ++ toString year ++ ".csv"

/-- The Archive button for a table: copy the current rows to the dated
file, touch nothing else. -/
def archiveAction (table : String) (df : List α) (month : String)
    (year : Nat) : ArchiveResult α :=
  { archived := df, live := df, file := archiveName table month year }

/-! ## Dashboard aggregates (app.py lines 176-179) -/

/-- `clients_df["Total Paid"].apply(pd.to_numeric, errors="coerce").fillna(0).sum()`. -/
def income (clients : List ClientRow) : ℚ :=
  (clients.map fun c => fillZero (toNumericCoerce c.totalPaid)).sum

/-- `clients_df["Total Due"].apply(pd.to_numeric, errors="coerce").fillna(0).sum()`. -/
def outstandingTotal (clients : List ClientRow) : ℚ :=
  (clients.map fun c => fillZero (toNumericCoerce c.totalDue)).sum

/-- `salaries_df[salaries_df["Paid"] == "Yes"]["Salary"].sum()` — a plain
sum, with no numeric coercion of malformed cells. -/
def paidSalaryTotal (salaries : List SalaryRow) : Option ℚ :=
  strictSum ((salaries.filter fun s => s.paid == "Yes").map (·.salary))

/-- `expenses_df["Amount"].sum() + paid_sal` — again a plain sum with no
coercion. -/
def totalExpenses (salaries : List SalaryRow) (expenses : List ExpenseRow) :
    Option ℚ := do
  let e ← strictSum (expenses.map (·.amount))
  let p ← paidSalaryTotal salaries
  pure (e + p)

/-- Modelled from the spec: app.py computes no "money remaining" figure
anywhere (the dashboard shows only Income, Outstanding, Paid Salaries and
Expenses), so this definition follows the spec's words
"money remaining = income − total expenses". -/
def moneyLeft (clients : List ClientRow) (salaries : List SalaryRow)
    (expenses : List ExpenseRow) : Option ℚ :=
  (totalExpenses salaries expenses).map fun e => income clients - e

/-! ## View Archives page (app.py line 508)

`files = sorted(ARCHIVE_DIR.glob("*.csv"), reverse=True)` — the archive
filenames in descending lexicographic order (Python compares the `Path`
objects of one directory by their name strings; `sorted` is stable, so an
element is placed before the first strictly smaller one). -/

/-- Lexicographic strict comparison of character lists by code point,
the order Python uses on strings (and `pathlib` on the paths of one
directory). -/
def charListLt : List Char → List Char → Bool
  | [], [] => false
  | [], _ :: _ => true
  | _ :: _, [] => false
  | a :: as, b :: bs =>
    if a < b then true else if b < a then false else charListLt as bs

/-- Python's `<` on strings: lexicographic on the characters. -/
def strLt (a b : String) : Bool := charListLt a.data b.data

/-- Stable descending insertion of a filename. -/
def insertDesc (x : String) : List String → List String
  | [] => [x]
  | y :: ys => if strLt y x then x :: y :: ys else y :: insertDesc x ys

/-- `sorted(files, reverse=True)`: stable descending sort by filename. -/
def listArchives (files : List String) : List String :=
  files.foldr insertDesc []

/-- Index of an English month name as produced by `strftime("%B")`
(January = 0); used only to state chronological order of archive tags. -/
def monthIndex (m : String) : Nat :=
  (["January", "February", "March", "April", "May", "June", "July",
    "August", "September", "October", "November", "December"].indexOf m)

/-- Chronological rank of an archive period `Month_Year`. -/
def periodRank (year : Nat) (month : String) : Nat :=
  12 * year + monthIndex month

/-! ## The CSV round trip (`save_df` / `pd.read_csv`)

`save_df(df, path)` is `df.to_csv(path, index=False)`: one header line
followed by one comma-joined line per row, each line ended by the line
terminator, a field being quoted — wrapped in quotes with inner quotes
doubled — exactly when it contains a delimiter, a quote or a line break
(QUOTE_MINIMAL with doublequote).  `pd.read_csv` parses the file back
into records of fields: a field starting with the quote character runs
to its closing quote (a doubled quote inside standing for a literal
one, and delimiters and line breaks inside quotes being ordinary text),
any other field runs to the next delimiter or line break; blank lines
are skipped (`skip_blank_lines=True`).  The file is modelled as a list
of characters and cells as character lists — the pre-coercion string
content of each cell; the type coercion of numeric and date columns
happens after this parse and is outside the round-trip statement, which
the spec poses "modulo type coercion". -/

/-- A cell needs quoting under QUOTE_MINIMAL iff it contains the
delimiter, the quote character or a line break. -/
def needsQuoting (cell : List Char) : Bool :=
  cell.any fun c => c = ',' ∨ c = '"' ∨ c = '\n' ∨ c = '\r'

/-- Doublequote escaping: each quote of the cell is doubled. -/
def escapeQuotes (cell : List Char) : List Char :=
  cell.flatMap fun c => if c = '"' then ['"', '"'] else [c]

/-- A field as written by `to_csv`: verbatim, or wrapped in quotes with
inner quotes doubled when quoting is needed. -/
def renderCell (cell : List Char) : List Char :=
  if needsQuoting cell then '"' :: escapeQuotes cell ++ ['"']
  else cell

/-- Join parts with a separator character (a comma for the fields of one
line). -/
def joinWith (sep : Char) : List (List Char) → List Char
  | [] => []
  | [p] => p
  | p :: ps => p ++ sep :: joinWith sep ps

/-- A table as persisted by `save_df`: the header row and the data rows,
each a list of cell strings. -/
structure CsvTable where
  header : List (List Char)
  rows : List (List (List Char))
deriving DecidableEq, Repr

/-- `df.to_csv(path, index=False)`: the header line then one line per
row, each line the comma-joined rendered fields followed by the line
terminator. -/
def save_df (t : CsvTable) : List Char :=
  (t.header :: t.rows).flatMap fun r =>
    joinWith ',' (r.map renderCell) ++ ['\n']

/-- The reader inside a quoted field: a doubled quote is a literal
quote, a single quote closes the field, every other character (including
delimiters and line breaks) is content.  Returns the field content and
the characters after the closing quote. -/
def parseQuoted : List Char → List Char × List Char
  | [] => ([], [])
  | c :: rest =>
    if c = '"' then
      match rest with
      | [] => ([], [])
      | d :: rest2 =>
        if d = '"' then
          let p := parseQuoted rest2
          ('"' :: p.1, p.2)
        else ([], rest)
    else
      let p := parseQuoted rest
      (c :: p.1, p.2)

/-- The reader outside quotes: the field runs to the next delimiter or
line break, which is left in the remainder. -/
def parseUnquoted : List Char → List Char × List Char
  | [] => ([], [])
  | c :: rest =>
    if c = ',' ∨ c = '\n' then ([], c :: rest)
    else
      let p := parseUnquoted rest
      (c :: p.1, p.2)

/-- One field: quoted when it starts with the quote character, plain
otherwise. -/
def parseField : List Char → List Char × List Char
  | [] => ([], [])
  | c :: rest =>
    if c = '"' then parseQuoted rest else parseUnquoted (c :: rest)

/-- The remainder of `parseQuoted` is no longer than its input. -/
theorem parseQuoted_rest_le : ∀ s : List Char,
    (parseQuoted s).2.length ≤ s.length
  | [] => by rw [parseQuoted.eq_def]
  | c :: rest => by
    rw [parseQuoted.eq_def]
    by_cases hc : c = '"'
    · subst hc
      cases rest with
      | nil => simp
      | cons d rest2 =>
        by_cases hd : d = '"'
        · subst hd
          have ih := parseQuoted_rest_le rest2
          simp
          omega
        · simp [hd]
    · have ih := parseQuoted_rest_le rest
      simp [hc]
      omega

/-- The remainder of `parseUnquoted` is no longer than its input. -/
theorem parseUnquoted_rest_le : ∀ s : List Char,
    (parseUnquoted s).2.length ≤ s.length
  | [] => by rw [parseUnquoted.eq_def]
  | c :: rest => by
    by_cases hc : c = ',' ∨ c = '\n'
    · rcases hc with rfl | rfl <;> (rw [parseUnquoted.eq_def]; simp)
    · have ih := parseUnquoted_rest_le rest
      rw [parseUnquoted.eq_def]
      simp [hc]
      omega

/-- The remainder of `parseField` is no longer than its input. -/
theorem parseField_rest_le (s : List Char) :
    (parseField s).2.length ≤ s.length := by
  cases s with
  | nil => rw [parseField.eq_def]
  | cons c rest =>
    rw [parseField.eq_def]
    by_cases hc : c = '"'
    · simp [hc]
      have h1 := parseQuoted_rest_le rest
      omega
    · simp [hc]
      have h1 := parseUnquoted_rest_le (c :: rest)
      simp only [List.length_cons] at h1
      omega

/-- A field remainder that starts with a delimiter or terminator is
strictly shorter than the parsed input. -/
theorem parseField_consume (s r2 : List Char) (ch : Char)
    (h : (parseField s).2 = ch :: r2) : r2.length < s.length := by
  have hle := parseField_rest_le s
  rw [h] at hle
  simp only [List.length_cons] at hle
  omega

/-- The whole file as a stream of fields, each tagged with whether it
ends its record (it was followed by the line terminator or the end of
the file rather than by a delimiter). -/
def parseAll : List Char → List (List Char × Bool)
  | [] => []
  | c :: cs =>
    match h : (parseField (c :: cs)).2 with
    | ',' :: r2 => ((parseField (c :: cs)).1, false) :: parseAll r2
    | '\n' :: r2 => ((parseField (c :: cs)).1, true) :: parseAll r2
    | _ => [((parseField (c :: cs)).1, true)]
termination_by s => s.length
decreasing_by
  all_goals exact parseField_consume _ _ _ h

/-- Group the tagged field stream back into records. -/
def groupFields : List (List Char × Bool) → List (List (List Char))
  | [] => []
  | (f, true) :: rest => [f] :: groupFields rest
  | (f, false) :: rest =>
    match groupFields rest with
    | [] => [[f]]
    | g :: gs => (f :: g) :: gs

/-- The tagged field stream of one record: every field but the last is
followed by a delimiter, the last by the line terminator. -/
def tagRow : List (List Char) → List (List Char × Bool)
  | [] => []
  | [f] => [(f, true)]
  | f :: fs => (f, false) :: tagRow fs

/-- `pd.read_csv`: parse the file into records of fields, dropping blank
lines (`skip_blank_lines=True`; on `to_csv` output a record parses to a
single empty field exactly when its line is blank, since an empty cell
is never quoted), the first remaining record being the header. -/
def readCsv (s : List Char) : CsvTable :=
  match (groupFields (parseAll s)).filter (fun r => decide (r ≠ [[]])) with
  | [] => { header := [], rows := [] }
  | h :: rs => { header := h, rows := rs }

/-! ## Password hashing (`hash_password`, app.py lines 46-47 and 526-531)

`hash_password(password)` is
`hashlib.sha256(password.encode()).hexdigest()`: UTF-8 encode the string,
hash with SHA-256 (FIPS 180-4) and write the 32 digest bytes as 64
lowercase hex characters.  The admin panel's save step applies, to each
Password cell, `lambda p: hash_password(p) if len(p) != 64 else p`.
Bytes and 32-bit words are `Nat`s kept below 2^8 / 2^32 by explicit
reduction. -/

/-- Reduce to a 32-bit word. -/
def w32 (n : Nat) : Nat := n % 4294967296

/-- Right rotation of a 32-bit word. -/
def rotr (n x : Nat) : Nat := w32 ((x >>> n) ||| (x <<< (32 - n)))

/-- UTF-8 encoding of one character (`str.encode()`'s per-code-point
byte sequence). -/
def utf8Char (c : Char) : List Nat :=
  let n := c.toNat
  if n < 128 then [n]
  else if n < 2048 then [192 + n / 64, 128 + n % 64]
  else if n < 65536 then
    [224 + n / 4096, 128 + n / 64 % 64, 128 + n % 64]
  else
    [240 + n / 262144, 128 + n / 4096 % 64, 128 + n / 64 % 64, 128 + n % 64]

/-- `password.encode()`: UTF-8 bytes of the string. -/
def utf8Bytes (s : String) : List Nat :=
  s.data.flatMap utf8Char

/-- The 64 SHA-256 round constants of FIPS 180-4 (the fractional parts
of the cube roots of the first 64 primes), written in decimal. -/
def shaK : List Nat :=
  [ 1116352408, 1899447441, 3049323471, 3921009573,
    961987163, 1508970993, 2453635748, 2870763221,
    3624381080, 310598401, 607225278, 1426881987,
    1925078388, 2162078206, 2614888103, 3248222580,
    3835390401, 4022224774, 264347078, 604807628,
    770255983, 1249150122, 1555081692, 1996064986,
    2554220882, 2821834349, 2952996808, 3210313671,
    3336571891, 3584528711, 113926993, 338241895,
    666307205, 773529912, 1294757372, 1396182291,
    1695183700, 1986661051, 2177026350, 2456956037,
    2730485921, 2820302411, 3259730800, 3345764771,
    3516065817, 3600352804, 4094571909, 275423344,
    430227734, 506948616, 659060556, 883997877,
    958139571, 1322822218, 1537002063, 1747873779,
    1955562222, 2024104815, 2227730452, 2361852424,
    2428436474, 2756734187, 3204031479, 3329325298 ]

/-- The eight working variables of the compression function. -/
structure Hash8 where
  a : Nat
  b : Nat
  c : Nat
  d : Nat
  e : Nat
  f : Nat
  g : Nat
  h : Nat
deriving DecidableEq, Repr

/-- The SHA-256 initial hash value (square-root fractional parts of the
first 8 primes), in decimal. -/
def shaH0 : Hash8 :=
  ⟨1779033703, 3144134277, 1013904242, 2773480762,
   1359893119, 2600822924, 528734635, 1541459225⟩

/-- SHA-256 padding: append `0x80`, zero bytes up to 56 mod 64, then the
bit length as eight big-endian bytes. -/
def padMessage (msg : List Nat) : List Nat :=
  let L := msg.length
  let zeros := (119 - L % 64) % 64
  let lenBE := [56, 48, 40, 32, 24, 16, 8, 0].map fun sh => (8 * L) >>> sh % 256
  msg ++ 128 :: List.replicate zeros 0 ++ lenBE

/-- Split the padded message into 64-byte chunks. -/
def chunks64 : List Nat → List (List Nat)
  | [] => []
  | b :: rest => (b :: rest).take 64 :: chunks64 ((b :: rest).drop 64)
termination_by l => l.length
decreasing_by simp; omega

/-- Pack bytes into big-endian 32-bit words. -/
def bytesToWords : List Nat → List Nat
  | b0 :: b1 :: b2 :: b3 :: rest =>
    (b0 * 16777216 + b1 * 65536 + b2 * 256 + b3) :: bytesToWords rest
  | _ => []

/-- One extension step of the message schedule: from the words so far,
append `w[i] = w[i-16] + s0(w[i-15]) + w[i-7] + s1(w[i-2])`. -/
def scheduleStep (w : List Nat) : List Nat :=
  let n := w.length
  let w15 := w.getD (n - 15) 0
  let w2 := w.getD (n - 2) 0
  let s0 := (rotr 7 w15) ^^^ (rotr 18 w15) ^^^ (w15 >>> 3)
  let s1 := (rotr 17 w2) ^^^ (rotr 19 w2) ^^^ (w2 >>> 10)
  w ++ [w32 (w.getD (n - 16) 0 + s0 + w.getD (n - 7) 0 + s1)]

/-- Iterate the schedule extension. -/
def extendSchedule : Nat → List Nat → List Nat
  | 0, w => w
  | k + 1, w => extendSchedule k (scheduleStep w)

/-- One round of the compression function with constant `ki` and schedule
word `wi`. -/
def compressStep (st : Hash8) (ki wi : Nat) : Hash8 :=
  let S1 := (rotr 6 st.e) ^^^ (rotr 11 st.e) ^^^ (rotr 25 st.e)
  let ch := (st.e &&& st.f) ^^^ ((st.e ^^^ 0xffffffff) &&& st.g)
  let temp1 := w32 (st.h + S1 + ch + ki + wi)
  let S0 := (rotr 2 st.a) ^^^ (rotr 13 st.a) ^^^ (rotr 22 st.a)
  let maj := (st.a &&& st.b) ^^^ (st.a &&& st.c) ^^^ (st.b &&& st.c)
  let temp2 := w32 (S0 + maj)
  ⟨w32 (temp1 + temp2), st.a, st.b, st.c, w32 (st.d + temp1), st.e, st.f, st.g⟩

/-- Process one 64-byte chunk: 64 rounds, then add the working variables
into the running hash. -/
def compressChunk (h0 : Hash8) (chunk : List Nat) : Hash8 :=
  let w := extendSchedule 48 (bytesToWords chunk)
  let fin := (shaK.zip w).foldl (fun st kw => compressStep st kw.1 kw.2) h0
  ⟨w32 (h0.a + fin.a), w32 (h0.b + fin.b), w32 (h0.c + fin.c),
   w32 (h0.d + fin.d), w32 (h0.e + fin.e), w32 (h0.f + fin.f),
   w32 (h0.g + fin.g), w32 (h0.h + fin.h)⟩

/-- Big-endian bytes of a 32-bit word. -/
def wordBytes (x : Nat) : List Nat :=
  [x >>> 24 % 256, x >>> 16 % 256, x >>> 8 % 256, x % 256]

/-- `hashlib.sha256(msg).digest()`: the 32 digest bytes. -/
def sha256bytes (msg : List Nat) : List Nat :=
  let h := (chunks64 (padMessage msg)).foldl compressChunk shaH0
  wordBytes h.a ++ wordBytes h.b ++ wordBytes h.c ++ wordBytes h.d ++
    wordBytes h.e ++ wordBytes h.f ++ wordBytes h.g ++ wordBytes h.h

/-- The two lowercase hex characters of one byte. -/
def hexByte (b : Nat) : List Char :=
  [Nat.digitChar (b / 16 % 16), Nat.digitChar (b % 16)]

/-- `hash_password`: SHA-256 hex digest of the UTF-8 encoded password. -/
def hash_password (p : String) : String :=
  String.mk ((sha256bytes (utf8Bytes p)).flatMap hexByte)

/-- The per-cell transformation of the Save Users button:
`lambda p: hash_password(p) if len(p) != 64 else p`. -/
def savePasswordStep (p : String) : String :=
  if p.length ≠ 64 then hash_password p else p

end App

/-! # Theorems -/

open App

/-! ## C1 — the Archive buttons -/

/-- C1 counterexample: archiving a one-row projects table leaves the live
table with that same row, so a subsequent load does not return a
header-only, zero-row table as the claim states. -/
theorem archive_then_load_not_empty :
    (archiveAction "projects"
        [{ client := "A", project := "P", employee := "E",
           budget := some 1000, payment20 := some 200,
           payment40 := some 400, payment40b := some 400,
           paidStatus := "No" : ProjectRow }] "September" 2026).live ≠ [] :=
  by simp [archiveAction]

/-- C1 (amended): pressing an Archive button writes exactly the current
rows (even when there are none — there is no empty-table skip or warning)
to the dated file `{table}_{Month}_{Year}.csv`, and leaves the live table
unchanged, so archive followed by load returns the rows present before
the archive call, not a header-only table. -/
theorem archiveAction_spec {α : Type} (table month : String) (year : Nat)
    (df : List α) :
    (archiveAction table df month year).archived = df ∧
    (archiveAction table df month year).live = df ∧
    (archiveAction table df month year).file =
      table ++ "_" ++ month ++ "_" ++ toString year ++ ".csv" :=
  ⟨rfl, rfl, rfl⟩

/-! ## C2 — the Add Project form -/

/-- C2 counterexample: adding a project with Budget = 1000 and the
number-input defaults (0) for the three payment fields stores
Payment 20% = 0, not round(1000 × 0.2, 2) = 200, and the stored Paid
Status is the selectbox value "No", not "Not Paid": the form performs no
milestone computation from the budget. -/
theorem addProject_budget1000_defaults :
    (addProject [] "A" "P" "E" 1000 0 0 0 "No").map (·.payment20) =
      [some 0] ∧ (0 : ℚ) ≠ 200 ∧
    (addProject [] "A" "P" "E" 1000 0 0 0 "No").map (·.paidStatus) =
      ["No"] ∧ "No" ≠ "Not Paid" := by
  refine ⟨rfl, by norm_num, rfl, by decide⟩

/-- C2 (amended): the Add Project button appends exactly one row holding
the eight form inputs verbatim — the three milestone amounts are the
independent number inputs, not values computed from the budget, and Paid
Status is the selected "No"/"Yes" value — leaving the existing rows
unchanged. -/
theorem addProject_stores_inputs (df : List ProjectRow) (c p e : String)
    (bud m1 m2 m3 : ℚ) (s : String) :
    (addProject df c p e bud m1 m2 m3 s).length = df.length + 1 ∧
    (addProject df c p e bud m1 m2 m3 s).take df.length = df ∧
    (addProject df c p e bud m1 m2 m3 s).getLast? =
      some { client := c, project := p, employee := e, budget := some bud,
             payment20 := some m1, payment40 := some m2,
             payment40b := some m3, paidStatus := s } := by
  refine ⟨by simp [addProject], ?_, ?_⟩
  · simp only [addProject]
    exact List.take_left df _
  · simp [addProject]

/-! ## C3 — Paid Status is not derived from the milestones -/

/-- C3 counterexample: a stored row whose three milestone amounts are all
0 but whose Paid Status reads "No" passes through the edit-and-save path
unchanged — no code sets the flag to "Paid" when the milestones reach 0,
so the claimed equivalence fails on this row. -/
theorem paidStatus_not_recomputed :
    (editAndSaveProjects
        [{ client := "A", project := "P", employee := "E",
           budget := some 1000, payment20 := some 0, payment40 := some 0,
           payment40b := some 0, paidStatus := "No" : ProjectRow }]).map
      (·.paidStatus) = ["No"] ∧ "No" ≠ "Paid" :=
  ⟨rfl, by decide⟩

/-- C3 (amended): Paid Status is an independently stored flag.  The
edit-and-save path persists the grid verbatim, never deriving Paid Status
from the milestone amounts, and the dashboard reminder test depends only
on the stored Paid Status string (skipping a project exactly when its
lowercasing is "yes"), not on the milestone amounts. -/
theorem paidStatus_independent (df : List ProjectRow) (r : ProjectRow)
    (x y z : Option ℚ) :
    editAndSaveProjects df = df ∧
    treatedAsPaid { r with payment20 := x, payment40 := y, payment40b := z } =
      treatedAsPaid r :=
  ⟨rfl, rfl⟩

/-! ## C9 — the "view" role can trigger no table write -/

/-- C9: a session whose role is "view", or whose role is absent from the
permission map, has `can(action)` false for every action, and every user
action that could reach a `save_df`/`to_csv` call writes no file at all,
because each such call sits behind its `can(...)` guard. -/
theorem view_role_writes_nothing (role action : String) (ev : UEvent)
    (h : role = "view" ∨ PERMISSIONS.lookup role = none) :
    can role action = false ∧ handleEvent role ev = [] := by
  have hcan : ∀ a, can role a = false := by
    intro a
    rcases h with h | h
    · subst h
      simp [can, PERMISSIONS, List.lookup]
    · simp [can, h]
  refine ⟨hcan action, ?_⟩
  cases ev <;> simp [handleEvent, hcan]

/-- Witness for C9 at the concrete role "view" and the Save Clients
action. -/
theorem view_role_writes_nothing_witness :
    can "view" "edit_clients" = false ∧
    handleEvent "view" UEvent.saveClients = [] :=
  view_role_writes_nothing "view" "edit_clients" UEvent.saveClients
    (Or.inl rfl)

/-! ## C10 — password hashing on Save Users -/

/-- The digest is 32 bytes. -/
theorem sha256bytes_length (msg : List Nat) :
    (sha256bytes msg).length = 32 := by
  simp [sha256bytes, wordBytes]

/-- Two hex characters per byte. -/
theorem length_flatMap_hexByte (l : List Nat) :
    (l.flatMap hexByte).length = 2 * l.length := by
  induction l with
  | nil => simp
  | cons b t ih => simp [hexByte, ih]; omega

/-- `hash_password` always returns 64 characters. -/
theorem hash_password_length (p : String) :
    (hash_password p).length = 64 := by
  simp only [hash_password, String.length_mk]
  rw [length_flatMap_hexByte, sha256bytes_length]

/-- C10: the Save Users transformation hashes a Password cell exactly
when its length is not 64 and leaves it unchanged otherwise; since the
SHA-256 hex digest always has 64 characters, the transformation is
idempotent — an already-hashed value is never double-hashed — while a
64-character plaintext is persisted unhashed. -/
theorem savePasswordStep_spec (p : String) :
    (hash_password p).length = 64 ∧
    savePasswordStep (savePasswordStep p) = savePasswordStep p ∧
    savePasswordStep p = if p.length ≠ 64 then hash_password p else p := by
  refine ⟨hash_password_length p, ?_, rfl⟩
  by_cases hp : p.length = 64
  · simp [savePasswordStep, hp]
  · have h1 : savePasswordStep p = hash_password p := by
      simp [savePasswordStep, hp]
    rw [h1, savePasswordStep, if_neg]
    simp [hash_password_length]

/-! ## C4 — the invoice generator picks the first outstanding milestone -/

/-- C4: for a project row with at least one non-null positive milestone
cell, the invoice generator's loop stops at the earliest position of the
fixed order Payment 20%, Payment 40%, Payment 40% (2) whose cell is
non-null and positive: every strictly earlier position fails the test,
so a later milestone is never selected — in particular not when an
earlier one was zeroed out of order. -/
theorem nextMilestone_selects_first (r : ProjectRow)
    (h : ∃ i : Fin 3, outstanding (milestoneAt r i) = true) :
    ∃ i : Fin 3,
      nextMilestone r = some (milestoneLabels i, milestoneAt r i) ∧
      outstanding (milestoneAt r i) = true ∧
      ∀ j : Fin 3, j < i → outstanding (milestoneAt r j) = false := by
  by_cases h0 : outstanding r.payment20 = true
  · refine ⟨0, ?_, h0, ?_⟩
    · simp [nextMilestone, h0, milestoneLabels, milestoneAt]
    · intro j hj
      exact absurd hj (by simp)
  · rw [Bool.not_eq_true] at h0
    by_cases h1 : outstanding r.payment40 = true
    · refine ⟨1, ?_, h1, ?_⟩
      · simp [nextMilestone, h0, h1, milestoneLabels, milestoneAt]
      · intro j hj
        fin_cases j
        · exact h0
        · exact absurd hj (by decide)
        · exact absurd hj (by decide)
    · rw [Bool.not_eq_true] at h1
      have h2 : outstanding r.payment40b = true := by
        obtain ⟨i, hi⟩ := h
        fin_cases i
        · exact absurd (show outstanding r.payment20 = true from hi)
            (by rw [h0]; decide)
        · exact absurd (show outstanding r.payment40 = true from hi)
            (by rw [h1]; decide)
        · exact hi
      refine ⟨2, ?_, h2, ?_⟩
      · simp [nextMilestone, h0, h1, h2, milestoneLabels, milestoneAt]
      · intro j hj
        fin_cases j
        · exact h0
        · exact h1
        · exact absurd hj (by decide)

/-- A sample project row whose first milestone was zeroed out of order
while the later two are outstanding. -/
def sampleProject : ProjectRow :=
  { client := "A", project := "P", employee := "E", budget := some 1000,
    payment20 := some 0, payment40 := some 400, payment40b := some 400,
    paidStatus := "No" }

/-- Witness for C4 on `sampleProject`: the hypothesis holds and the loop
selects Payment 40%, the earliest outstanding milestone. -/
theorem nextMilestone_selects_first_witness :
    (∃ i : Fin 3, outstanding (milestoneAt sampleProject i) = true) ∧
    (∃ i : Fin 3,
      nextMilestone sampleProject =
        some (milestoneLabels i, milestoneAt sampleProject i) ∧
      outstanding (milestoneAt sampleProject i) = true ∧
      ∀ j : Fin 3, j < i →
        outstanding (milestoneAt sampleProject j) = false) :=
  ⟨by decide, nextMilestone_selects_first sampleProject (by decide)⟩

/-! ## C6 — the dashboard aggregates on the worked example -/

/-- The clients of the spec's worked example. -/
def exClients : List ClientRow :=
  [ { client := "C1", contact := "", totalPaid := Cell.num 100,
      totalDue := Cell.num 50 },
    { client := "C2", contact := "", totalPaid := Cell.num 200,
      totalDue := Cell.num 0 } ]

/-- The salaries of the spec's worked example. -/
def exSalaries : List SalaryRow :=
  [ { employee := "E", role := "R", salary := Cell.num 80, paid := "Yes",
      date := "" } ]

/-- The expenses of the spec's worked example. -/
def exExpenses : List ExpenseRow :=
  [ { category := "Misc", amount := Cell.num 20, date := "", notes := "" } ]

/-- C6: on the worked example the dashboard aggregates of app.py lines
176-179 — income as the coerced sum of Total Paid, outstanding as the
coerced sum of Total Due, paid salaries as the sum of Salary where
Paid = "Yes", expenses as the expense sum plus paid salaries — come out
as 300, 50, 80 and 100, and the spec-modelled money remaining
(income − total expenses, computed nowhere in app.py) as 200. -/
theorem dashboard_aggregates_example :
    income exClients = 300 ∧
    outstandingTotal exClients = 50 ∧
    paidSalaryTotal exSalaries = some 80 ∧
    totalExpenses exSalaries exExpenses = some 100 ∧
    moneyLeft exClients exSalaries exExpenses = some 200 := by
  refine ⟨?_, ?_, ?_, ?_, ?_⟩ <;>
    norm_num [income, outstandingTotal, paidSalaryTotal, totalExpenses,
      moneyLeft, exClients, exSalaries, exExpenses, strictSum,
      toNumericCoerce, fillZero]

/-! ## C8 — numeric coercion happens only for the client columns -/

/-- A string cell anywhere in a plainly summed column makes the sum
undefined. -/
theorem strictSum_none_of_str (s : String) (l : List Cell)
    (h : Cell.str s ∈ l) : strictSum l = none := by
  induction l with
  | nil => cases h
  | cons c t ih =>
    cases c with
    | num q =>
      rcases List.mem_cons.mp h with h' | h'
      · cases h'
      · simp [strictSum, ih h']
    | nan =>
      rcases List.mem_cons.mp h with h' | h'
      · cases h'
      · simp [strictSum, ih h']
    | str s' => simp [strictSum]

/-- C8 counterexample: a salaries table whose single Paid="Yes" row has
the unparsable Salary cell "eighty" leaves the paid-salary aggregate
undefined (pandas raises on the plain `.sum()`), not 0 as the claim's
universal coercion would give. -/
theorem paidSalary_undefined_on_malformed :
    paidSalaryTotal
      [{ employee := "E", role := "R", salary := Cell.str "eighty",
         paid := "Yes", date := "" }] = none ∧
    (none : Option ℚ) ≠ some 0 :=
  ⟨rfl, by decide⟩

/-- C8 (amended): the coercion to 0 of missing or unparsable numeric
cells applies only to the client columns Total Paid and Total Due (via
`to_numeric(errors="coerce").fillna(0)`), whose aggregates are therefore
total, a malformed cell contributing 0; the paid-salary and expense sums
are plain `.sum()` calls without coercion, and one malformed cell there
leaves those aggregates undefined. -/
theorem coercion_only_for_client_columns (name contact s : String)
    (d : Cell) (rest : List ClientRow) (pre post : List SalaryRow)
    (emp rl dt : String) (sal : List SalaryRow)
    (pre2 post2 : List ExpenseRow) (cat dt2 nts : String) :
    income
      ({ client := name, contact := contact, totalPaid := Cell.str s,
         totalDue := d } :: rest) = income rest ∧
    outstandingTotal
      ({ client := name, contact := contact, totalPaid := d,
         totalDue := Cell.str s } :: rest) = outstandingTotal rest ∧
    paidSalaryTotal
      (pre ++
        { employee := emp, role := rl, salary := Cell.str s,
          paid := "Yes", date := dt } :: post) = none ∧
    totalExpenses sal
      (pre2 ++
        { category := cat, amount := Cell.str s, date := dt2,
          notes := nts } :: post2) = none := by
  refine ⟨?_, ?_, ?_, ?_⟩
  · simp [income, toNumericCoerce, fillZero]
  · simp [outstandingTotal, toNumericCoerce, fillZero]
  · apply strictSum_none_of_str s
    refine List.mem_map.mpr
      ⟨{ employee := emp, role := rl, salary := Cell.str s,
         paid := "Yes", date := dt }, ?_, rfl⟩
    refine List.mem_filter.mpr ⟨?_, by simp⟩
    exact List.mem_append_right _ (List.mem_cons_self _ _)
  · have hnone :
        strictSum
          ((pre2 ++
            { category := cat, amount := Cell.str s, date := dt2,
              notes := nts } :: post2).map (·.amount)) = none := by
      apply strictSum_none_of_str s
      refine List.mem_map.mpr
        ⟨{ category := cat, amount := Cell.str s, date := dt2,
           notes := nts }, ?_, rfl⟩
      exact List.mem_append_right _ (List.mem_cons_self _ _)
    simp only [totalExpenses, hnone]
    rfl

/-! ## C7 — the order of the archive listing -/

/-- The computational comparison decides the lexicographic order of
character lists. -/
theorem charListLt_iff : ∀ as bs : List Char,
    charListLt as bs = true ↔ List.Lex (· < ·) as bs
  | [], [] => by
    rw [charListLt]
    constructor
    · intro h; cases h
    · intro h; cases h
  | [], b :: bs => by
    rw [charListLt]
    exact iff_of_true rfl List.Lex.nil
  | a :: as, [] => by
    rw [charListLt]
    constructor
    · intro h; cases h
    · intro h; cases h
  | a :: as, b :: bs => by
    rw [charListLt]
    by_cases hab : a < b
    · rw [if_pos hab]
      exact iff_of_true rfl (List.Lex.rel hab)
    · rw [if_neg hab]
      by_cases hba : b < a
      · rw [if_pos hba]
        constructor
        · intro h; cases h
        · intro h
          cases h with
          | rel h' => exact absurd h' hab
          | cons h' => exact absurd hba (lt_irrefl a)
      · rw [if_neg hba]
        have heq : a = b := le_antisymm (not_lt.mp hba) (not_lt.mp hab)
        subst heq
        rw [charListLt_iff as bs]
        constructor
        · intro h; exact List.Lex.cons h
        · intro h
          cases h with
          | rel h' => exact absurd h' hab
          | cons h' => exact h'

/-- The computational comparison agrees with the order on strings. -/
theorem strLt_iff (a b : String) : strLt a b = true ↔ a < b := by
  rw [strLt, charListLt_iff, String.lt_iff_toList_lt]
  exact Iff.rfl

/-- Descending insertion keeps the multiset of filenames. -/
theorem insertDesc_perm (x : String) (l : List String) :
    (insertDesc x l).Perm (x :: l) := by
  induction l with
  | nil => simp [insertDesc]
  | cons y ys ih =>
    by_cases hlt : strLt y x = true
    · rw [insertDesc, if_pos hlt]
    · rw [insertDesc, if_neg hlt]
      exact (ih.cons y).trans (List.Perm.swap x y ys)

/-- Membership after a descending insertion. -/
theorem mem_insertDesc {b x : String} {l : List String} :
    b ∈ insertDesc x l ↔ b = x ∨ b ∈ l := by
  rw [(insertDesc_perm x l).mem_iff, List.mem_cons]

/-- Descending insertion preserves descending sortedness. -/
theorem sorted_insertDesc (x : String) (l : List String)
    (h : l.Sorted fun a b => b ≤ a) :
    (insertDesc x l).Sorted fun a b => b ≤ a := by
  induction l with
  | nil => simp [insertDesc]
  | cons y ys ih =>
    rw [List.sorted_cons] at h
    obtain ⟨hy, hys⟩ := h
    by_cases hlt : strLt y x = true
    · have hyx : y < x := (strLt_iff y x).mp hlt
      rw [insertDesc, if_pos hlt, List.sorted_cons]
      refine ⟨?_, List.sorted_cons.mpr ⟨hy, hys⟩⟩
      intro b hb
      rcases List.mem_cons.mp hb with rfl | hb
      · exact le_of_lt hyx
      · exact le_trans (hy b hb) (le_of_lt hyx)
    · have hyx : ¬ y < x := fun h' => hlt ((strLt_iff y x).mpr h')
      rw [insertDesc, if_neg hlt, List.sorted_cons]
      refine ⟨?_, ih hys⟩
      intro b hb
      rcases mem_insertDesc.mp hb with rfl | hb
      · exact not_lt.mp hyx
      · exact hy b hb

/-- C7 counterexample: with the dated tags spelt as month names, the
reverse-lexicographic listing is not chronological — the archive for
September 2025 (the earlier period) precedes the archive for April 2026
(the later period), because "April" sorts before "September" as a
string. -/
theorem listArchives_not_chronological :
    listArchives
      [archiveName "salaries" "April" 2026,
       archiveName "salaries" "September" 2025] =
      [archiveName "salaries" "September" 2025,
       archiveName "salaries" "April" 2026] ∧
    periodRank 2025 "September" < periodRank 2026 "April" := by
  constructor
  · decide
  · decide

/-- C7 (amended): the View Archives page lists the archive filenames in
descending lexicographic order (a stable descending sort, a permutation
of the directory listing); because the date tag spells the month name,
this order does not coincide with newest-first chronological order. -/
theorem listArchives_sorted_desc (files : List String) :
    ((listArchives files).Sorted fun a b : String => b ≤ a) ∧
    (listArchives files).Perm files := by
  induction files with
  | nil => simp [listArchives]
  | cons f fs ih =>
    obtain ⟨hs, hp⟩ := ih
    constructor
    · exact sorted_insertDesc f _ hs
    · exact (insertDesc_perm f _).trans (hp.cons f)

/-! ## C5 — the CSV round trip -/

/-- A cell that needs no quoting is written verbatim. -/
theorem renderCell_clean (cell : List Char)
    (h : needsQuoting cell = false) : renderCell cell = cell := by
  simp [renderCell, h]

/-- A cell that needs no quoting contains no delimiter, quote or line
break. -/
theorem not_mem_of_clean {ch : Char} (cell : List Char)
    (h : needsQuoting cell = false)
    (hch : ch = ',' ∨ ch = '"' ∨ ch = '\n' ∨ ch = '\r') : ch ∉ cell := by
  intro hm
  rw [needsQuoting, List.any_eq_false] at h
  have := h ch hm
  simp only [decide_eq_true_eq] at this
  exact this hch

/-- A field that starts with the quote character is read as a quoted
field. -/
theorem parseField_quote (tail : List Char) :
    parseField ('"' :: tail) = parseQuoted tail := by
  rw [parseField.eq_def]
  simp

/-- A field that starts with any other character is read unquoted. -/
theorem parseField_unquoted (c : Char) (tail : List Char)
    (hc : ¬ c = '"') :
    parseField (c :: tail) = parseUnquoted (c :: tail) := by
  rw [parseField.eq_def]
  simp [hc]

/-- The quoted reader undoes doublequote escaping: it recovers the cell
and stops right after the closing quote, whatever the cell contains, as
long as the closing quote is not immediately followed by another quote
(after `to_csv` output it is followed by a delimiter or a line
terminator). -/
theorem parseQuoted_escape (cell rest : List Char)
    (h : rest.head? ≠ some '"') :
    parseQuoted (escapeQuotes cell ++ '"' :: rest) = (cell, rest) := by
  induction cell with
  | nil =>
    simp only [escapeQuotes, List.flatMap_nil, List.nil_append]
    rw [parseQuoted.eq_def]
    cases rest with
    | nil => simp
    | cons d r2 =>
      have hd : ¬ d = '"' := by
        intro e
        rw [e] at h
        simp at h
      simp [hd]
  | cons c cs ih =>
    by_cases hc : c = '"'
    · subst hc
      have he : escapeQuotes ('"' :: cs) ++ '"' :: rest =
          '"' :: '"' :: (escapeQuotes cs ++ '"' :: rest) := by
        simp [escapeQuotes]
      rw [he, parseQuoted.eq_def]
      simp [ih]
    · have he : escapeQuotes (c :: cs) ++ '"' :: rest =
          c :: (escapeQuotes cs ++ '"' :: rest) := by
        simp [escapeQuotes, hc]
      rw [he, parseQuoted.eq_def]
      simp [hc, ih]

/-- The unquoted reader recovers a delimiter-free, terminator-free cell
and stops at the delimiter or terminator that follows it. -/
theorem parseUnquoted_append (cell rest : List Char)
    (hc : (',' : Char) ∉ cell) (hn : ('\n' : Char) ∉ cell)
    (hr : rest.head? = some ',' ∨ rest.head? = some '\n') :
    parseUnquoted (cell ++ rest) = (cell, rest) := by
  induction cell with
  | nil =>
    cases rest with
    | nil => simp at hr
    | cons d r2 =>
      have hd : d = ',' ∨ d = '\n' := by
        rcases hr with h | h
        · exact Or.inl (by simpa using h)
        · exact Or.inr (by simpa using h)
      rcases hd with rfl | rfl <;>
        (rw [List.nil_append, parseUnquoted.eq_def]; simp)
  | cons x xs ih =>
    have hx : ¬ (x = ',' ∨ x = '\n') := by
      rintro (rfl | rfl)
      · exact hc (List.mem_cons_self _ _)
      · exact hn (List.mem_cons_self _ _)
    have ih' := ih (fun hm => hc (List.mem_cons_of_mem _ hm))
      (fun hm => hn (List.mem_cons_of_mem _ hm))
    rw [List.cons_append, parseUnquoted.eq_def]
    simp [hx, ih']

/-- Reading one rendered field recovers the cell — quoted or not — and
stops at the delimiter or line terminator that follows it. -/
theorem parseField_renderCell (cell rest : List Char)
    (hr : rest.head? = some ',' ∨ rest.head? = some '\n') :
    parseField (renderCell cell ++ rest) = (cell, rest) := by
  by_cases hq : needsQuoting cell = true
  · have hrc : renderCell cell = '"' :: (escapeQuotes cell ++ ['"']) := by
      simp [renderCell, hq]
    have hassoc : ('"' :: (escapeQuotes cell ++ ['"'])) ++ rest =
        '"' :: (escapeQuotes cell ++ '"' :: rest) := by simp
    rw [hrc, hassoc, parseField_quote]
    apply parseQuoted_escape
    rcases hr with h | h <;> rw [h] <;> simp
  · have hq' : needsQuoting cell = false := by
      rw [Bool.not_eq_true] at hq
      exact hq
    rw [renderCell_clean cell hq']
    cases cell with
    | nil =>
      rw [List.nil_append]
      cases rest with
      | nil => simp at hr
      | cons d r2 =>
        have hd : d = ',' ∨ d = '\n' := by
          rcases hr with h | h
          · exact Or.inl (by simpa using h)
          · exact Or.inr (by simpa using h)
        have hdq : ¬ d = '"' := by
          rcases hd with rfl | rfl <;> decide
        rw [parseField_unquoted d r2 hdq, parseUnquoted.eq_def]
        rcases hd with rfl | rfl <;> simp
    | cons x xs =>
      have hquot : ('"' : Char) ∉ x :: xs :=
        not_mem_of_clean _ hq' (by simp)
      have hx : ¬ x = '"' := by
        intro e
        subst e
        exact hquot (List.mem_cons_self _ _)
      rw [List.cons_append, parseField_unquoted x (xs ++ rest) hx]
      rw [show x :: (xs ++ rest) = (x :: xs) ++ rest from rfl]
      exact parseUnquoted_append (x :: xs) rest
        (not_mem_of_clean _ hq' (by simp))
        (not_mem_of_clean _ hq' (by simp)) hr

/-- The field stream of the empty file is empty. -/
theorem parseAll_nil : parseAll [] = [] := by
  rw [parseAll.eq_def]

/-- A field followed by a delimiter starts the field stream and parsing
continues after the delimiter. -/
theorem parseAll_step_comma (s f r2 : List Char)
    (h : parseField s = (f, ',' :: r2)) :
    parseAll s = (f, false) :: parseAll r2 := by
  cases s with
  | nil =>
    rw [parseField.eq_def] at h
    simp at h
  | cons a as =>
    rw [parseAll.eq_def]
    split
    · rename_i heq
      simp at heq
    · rename_i c2 cs2 heq
      injection heq with h1 h2
      subst h1; subst h2
      split
      · rename_i r2x heq2
        rw [h] at heq2
        simp only [List.cons.injEq] at heq2
        obtain ⟨-, rfl⟩ := heq2
        simp [h]
      · rename_i r2x heq2
        rw [h] at heq2
        simp at heq2
      · rename_i x hcomma hnl
        exact absurd (congrArg Prod.snd h) (hcomma r2)

/-- A field followed by the line terminator ends its record and parsing
continues after the terminator. -/
theorem parseAll_step_newline (s f r2 : List Char)
    (h : parseField s = (f, '\n' :: r2)) :
    parseAll s = (f, true) :: parseAll r2 := by
  cases s with
  | nil =>
    rw [parseField.eq_def] at h
    simp at h
  | cons a as =>
    rw [parseAll.eq_def]
    split
    · rename_i heq
      simp at heq
    · rename_i c2 cs2 heq
      injection heq with h1 h2
      subst h1; subst h2
      split
      · rename_i r2x heq2
        rw [h] at heq2
        simp at heq2
      · rename_i r2x heq2
        rw [h] at heq2
        simp only [List.cons.injEq] at heq2
        obtain ⟨-, rfl⟩ := heq2
        simp [h]
      · rename_i x hcomma hnl
        exact absurd (congrArg Prod.snd h) (hnl r2)

/-- Parsing one written line yields the row's tagged fields and
continues with the remaining input. -/
theorem parseAll_line (row : List (List Char)) (rest : List Char)
    (hrow : row ≠ []) :
    parseAll (joinWith ',' (row.map renderCell) ++ '\n' :: rest) =
      tagRow row ++ parseAll rest := by
  induction row with
  | nil => cases hrow rfl
  | cons c cs ih =>
    cases cs with
    | nil =>
      have hf := parseField_renderCell c ('\n' :: rest) (Or.inr rfl)
      rw [show joinWith ',' ([c].map renderCell) = renderCell c from rfl]
      rw [parseAll_step_newline _ _ _ hf]
      rw [show tagRow [c] = [(c, true)] from rfl]
      simp
    | cons d ds =>
      have hjoin : joinWith ',' ((c :: d :: ds).map renderCell) ++
          '\n' :: rest =
          renderCell c ++
            ',' :: (joinWith ',' ((d :: ds).map renderCell) ++
              '\n' :: rest) := by
        rw [show (c :: d :: ds).map renderCell =
              renderCell c :: (d :: ds).map renderCell from rfl]
        rw [show joinWith ','
              (renderCell c :: (d :: ds).map renderCell) =
              renderCell c ++
                ',' :: joinWith ',' ((d :: ds).map renderCell) from rfl]
        simp
      rw [hjoin]
      have hf := parseField_renderCell c
        (',' :: (joinWith ',' ((d :: ds).map renderCell) ++ '\n' :: rest))
        (Or.inl rfl)
      rw [parseAll_step_comma _ _ _ hf]
      rw [ih (by simp)]
      rw [show tagRow (c :: d :: ds) = (c, false) :: tagRow (d :: ds)
            from rfl]
      simp

/-- Grouping the tagged fields of a record restores that record. -/
theorem groupFields_tagRow (row : List (List Char))
    (rest : List (List Char × Bool)) (hrow : row ≠ []) :
    groupFields (tagRow row ++ rest) = row :: groupFields rest := by
  induction row with
  | nil => cases hrow rfl
  | cons c cs ih =>
    cases cs with
    | nil =>
      rw [show tagRow [c] = [(c, true)] from rfl]
      rw [show ([(c, true)] : List (List Char × Bool)) ++ rest =
            (c, true) :: rest from rfl]
      rw [show groupFields ((c, true) :: rest) =
            [c] :: groupFields rest from rfl]
    | cons d ds =>
      have ih' := ih (by simp)
      rw [show tagRow (c :: d :: ds) = (c, false) :: tagRow (d :: ds)
            from rfl]
      rw [List.cons_append, groupFields.eq_def]
      simp [ih']

/-- Parsing the written file yields the tagged fields of all its
records in order. -/
theorem parseAll_file (rs : List (List (List Char)))
    (h : ∀ r ∈ rs, r ≠ []) :
    parseAll (rs.flatMap fun r =>
        joinWith ',' (r.map renderCell) ++ ['\n']) =
      rs.flatMap tagRow := by
  induction rs with
  | nil => simp [parseAll_nil]
  | cons r rs' ih =>
    rw [List.flatMap_cons]
    have hline : (joinWith ',' (r.map renderCell) ++ ['\n']) ++
        rs'.flatMap (fun x => joinWith ',' (x.map renderCell) ++ ['\n']) =
        joinWith ',' (r.map renderCell) ++
          '\n' :: rs'.flatMap
            (fun x => joinWith ',' (x.map renderCell) ++ ['\n']) := by
      simp
    rw [hline, parseAll_line r _ (h r (List.mem_cons_self _ _))]
    rw [ih fun x hx => h x (List.mem_cons_of_mem _ hx)]
    rw [List.flatMap_cons]

/-- Grouping the tagged fields of all records restores the records. -/
theorem groupFields_file (rs : List (List (List Char)))
    (h : ∀ r ∈ rs, r ≠ []) :
    groupFields (rs.flatMap tagRow) = rs := by
  induction rs with
  | nil => rfl
  | cons r rs' ih =>
    rw [List.flatMap_cons,
      groupFields_tagRow r _ (h r (List.mem_cons_self _ _)),
      ih fun x hx => h x (List.mem_cons_of_mem _ hx)]

/-- C5: for every table — arbitrary cell contents, quoting included —
with a nonempty header and nonempty rows, none of which is a lone empty
cell (the one shape whose line is blank and which `read_csv` therefore
drops), writing with `save_df` and reading back with `read_csv` returns
exactly the header and rows that were written; the documented type
coercion of numeric and date columns happens after this parse and is
outside the statement. -/
theorem readCsv_save_df (t : CsvTable)
    (hh : t.header ≠ [] ∧ t.header ≠ [[]])
    (hr : ∀ r ∈ t.rows, r ≠ [] ∧ r ≠ [[]]) :
    readCsv (save_df t) = t := by
  obtain ⟨header, rows⟩ := t
  have hne : ∀ r ∈ header :: rows, r ≠ [] := by
    intro r hrr
    rcases List.mem_cons.mp hrr with rfl | h2
    · exact hh.1
    · exact (hr r h2).1
  have hgrp : groupFields (parseAll (save_df ⟨header, rows⟩)) =
      header :: rows := by
    rw [show save_df ⟨header, rows⟩ =
          (header :: rows).flatMap
            (fun r => joinWith ',' (r.map renderCell) ++ ['\n'])
          from rfl]
    rw [parseAll_file _ hne, groupFields_file _ hne]
  have hfil : (header :: rows).filter
      (fun r => decide (r ≠ [[]])) = header :: rows := by
    rw [List.filter_eq_self]
    intro r hrr
    rcases List.mem_cons.mp hrr with rfl | h2
    · simpa using hh.2
    · simpa using (hr r h2).2
  rw [readCsv, hgrp, hfil]

/-- A concrete table for the C5 witness, with a comma inside one cell, a
quote inside another, and an empty cell — exercising the quoted as well
as the plain round trip. -/
def sampleCsv : CsvTable :=
  { header := [['A'], ['B']],
    rows := [[['x', ',', 'y'], ['2']], [['q', '"', 'z'], []]] }

/-- Witness for C5 on `sampleCsv`. -/
theorem readCsv_save_df_witness :
    ((sampleCsv.header ≠ [] ∧ sampleCsv.header ≠ [[]]) ∧
      ∀ r ∈ sampleCsv.rows, r ≠ [] ∧ r ≠ [[]]) ∧
    readCsv (save_df sampleCsv) = sampleCsv :=
  ⟨⟨by decide, by decide⟩,
   readCsv_save_df sampleCsv (by decide) (by decide)⟩
